import Mathlib

/-!
Verification of the DFW precinct-map backend (`server.js`): the schema
initializer, the CSV results loader, the GeoJSON precincts loader, and the six
read-only query endpoints, shallowly embedded as pure Lean functions.

Modelling conventions:
* JSON numbers are modelled as integers (`Int`); IEEE-754 double formatting is
  a floating-point concern outside the embedding.
* JavaScript objects reachable by the code are modelled by the fields the code
  actually reads; property values are `Option Json` (`none` = absent).
* The SQLite store is modelled as a list of rows whose fields are
  `Option String` (`none` = SQL NULL): every precinct column has TEXT
  affinity for its stored contents, and a row is the values bound at insert.
* `JSON.parse` is modelled on whitespace-free input: the only text the server
  ever parses back is text previously produced by `JSON.stringify`, which
  emits no whitespace.
-/

namespace DfwMap

/-! ## JSON values

`Json` is the value domain for GeoJSON geometries and feature properties.
Arrays and objects are separate mutual inductives so that structural mutual
recursion and induction are available. -/

mutual
inductive Json : Type
  | null : Json
  | bool (b : Bool) : Json
  | num (n : Int) : Json
  | str (s : String) : Json
  | arr (elems : JsonArr) : Json
  | obj (members : JsonObj) : Json
  deriving DecidableEq
inductive JsonArr : Type
  | nil : JsonArr
  | cons (hd : Json) (tl : JsonArr) : JsonArr
  deriving DecidableEq
inductive JsonObj : Type
  | nil : JsonObj
  | cons (key : String) (val : Json) (tl : JsonObj) : JsonObj
  deriving DecidableEq
end

/-- JavaScript truthiness of a JSON value: `null`, `false`, `0` and `""` are
falsy; every array and object is truthy. -/
def truthy : Json → Bool
  | .null => false
  | .bool b => b
  | .num n => decide (n ≠ 0)
  | .str s => decide (s ≠ "")
  | .arr _ => true
  | .obj _ => true

/-- JavaScript `a || b` where `a` is a possibly-absent property value:
the left value wins exactly when it is present and truthy. -/
def jsOr (a : Option Json) (b : Json) : Json :=
  match a with
  | some v => if truthy v then v else b
  | none => b

/-! ## Decimal digits -/

/-- The character for a single decimal or hexadecimal digit (lowercase hex,
as emitted by `JSON.stringify` escapes). -/
def hexChar (d : Nat) : Char :=
  if d < 10 then Char.ofNat (48 + d) else Char.ofNat (87 + d)

/-- Decimal digit characters of `n`, most-significant first; fuel-structural
so that it evaluates by kernel reduction. -/
def natCharsAux : Nat → Nat → List Char
  | 0, _ => []
  | _ + 1, 0 => []
  | fuel + 1, n + 1 => natCharsAux fuel ((n + 1) / 10) ++ [hexChar ((n + 1) % 10)]

/-- Decimal representation of a natural number, as JavaScript renders it. -/
def natChars (n : Nat) : List Char :=
  if n = 0 then ['0'] else natCharsAux (n + 1) n

/-- Decimal representation of an integer: optional minus sign, then digits. -/
def intChars (n : Int) : List Char :=
  if n < 0 then '-' :: natChars n.natAbs else natChars n.natAbs

/-! ## JavaScript `String(...)` conversion

`String(v)` for the values the loader can select as a district: strings pass
through, numbers render in decimal, `null` renders as `"null"`, arrays render
as their comma-joined elements (with `null` elements empty), and plain
objects render as `"[object Object]"`. -/

mutual
def jsElemChars : Json → List Char
  | .null => []
  | .bool true => "true".data
  | .bool false => "false".data
  | .num n => intChars n
  | .str s => s.data
  | .arr a => jsJoinChars a
  | .obj _ => "[object Object]".data
def jsJoinChars : JsonArr → List Char
  | .nil => []
  | .cons h .nil => jsElemChars h
  | .cons h (.cons h2 t2) => jsElemChars h ++ ',' :: jsJoinChars (.cons h2 t2)
end

/-- JavaScript `String(v)`. -/
def jsString : Json → String
  | .null => "null"
  | .bool true => "true"
  | .bool false => "false"
  | .num n => String.mk (intChars n)
  | .str s => s
  | .arr a => String.mk (jsJoinChars a)
  | .obj _ => "[object Object]"

/-! ## `JSON.stringify` -/

/-- The `U+007B` left-brace character (kept out of literals). -/
def lbrace : Char := Char.ofNat 123

/-- The `U+007D` right-brace character. -/
def rbrace : Char := Char.ofNat 125

/-- One character of a JSON string body, escaped as `JSON.stringify` escapes
it: quote, backslash, the five shorthand control escapes, `\u00XX` for the
remaining control characters, and everything else verbatim. -/
def escapeChar (c : Char) : List Char :=
  if c = '"' then ['\\', '"']
  else if c = '\\' then ['\\', '\\']
  else if c = Char.ofNat 8 then ['\\', 'b']
  else if c = '\t' then ['\\', 't']
  else if c = '\n' then ['\\', 'n']
  else if c = Char.ofNat 12 then ['\\', 'f']
  else if c = '\r' then ['\\', 'r']
  else if c.toNat < 32 then
    ['\\', 'u', '0', '0', hexChar (c.toNat / 16), hexChar (c.toNat % 16)]
  else [c]

def escapeList : List Char → List Char
  | [] => []
  | c :: cs => escapeChar c ++ escapeList cs

/-- A JSON string literal: quote, escaped body, quote. -/
def quoteChars (s : String) : List Char :=
  '"' :: (escapeList s.data ++ ['"'])

mutual
/-- Serialization `JSON.stringify`, to a character list (compact form: no whitespace). -/
def jsonChars : Json → List Char
  | .null => 'n' :: ('u' :: ('l' :: ('l' :: [])))
  | .bool true => 't' :: ('r' :: ('u' :: ('e' :: [])))
  | .bool false => 'f' :: ('a' :: ('l' :: ('s' :: ('e' :: []))))
  | .num n => intChars n
  | .str s => quoteChars s
  | .arr .nil => ['[', ']']
  | .arr (.cons h t) => '[' :: (jsonChars h ++ (tailChars t ++ [']']))
  | .obj .nil => [lbrace, rbrace]
  | .obj (.cons k v t) =>
      lbrace :: (quoteChars k ++ ':' :: (jsonChars v ++ (mtailChars t ++ [rbrace])))
def tailChars : JsonArr → List Char
  | .nil => []
  | .cons h t => ',' :: (jsonChars h ++ tailChars t)
def mtailChars : JsonObj → List Char
  | .nil => []
  | .cons k v t => ',' :: (quoteChars k ++ ':' :: (jsonChars v ++ mtailChars t))
end

/-- Serialization `JSON.stringify` as a `String`. -/
def stringifyJson (g : Json) : String := String.mk (jsonChars g)

/-! ## `JSON.parse`

A recursive-descent parser over character lists, total by a fuel argument.
It accepts exactly the compact JSON the server stores (no whitespace, integer
numbers); `jsonParse` supplies fuel from the input length, which the
round-trip theorems show is always enough for stringified values. -/

def isDig (c : Char) : Bool := 48 ≤ c.toNat && c.toNat ≤ 57

def isHex (c : Char) : Bool :=
  (48 ≤ c.toNat && c.toNat ≤ 57) || (97 ≤ c.toNat && c.toNat ≤ 102) ||
    (65 ≤ c.toNat && c.toNat ≤ 70)

def hexVal (c : Char) : Nat :=
  if 48 ≤ c.toNat && c.toNat ≤ 57 then c.toNat - 48
  else if 97 ≤ c.toNat && c.toNat ≤ 102 then c.toNat - 87
  else c.toNat - 55

/-- Decode a JSON string body after the opening quote, undoing escapes, up to
and including the closing quote; returns the decoded body and the remainder. -/
def parseStrBody : List Char → Option (List Char × List Char)
  | [] => none
  | c :: cs =>
    if c = '"' then some ([], cs)
    else if c = '\\' then
      match cs with
      | [] => none
      | e :: cs2 =>
        if e = '"' || e = '\\' || e = '/' then
          (parseStrBody cs2).map (fun p => (e :: p.1, p.2))
        else if e = 'b' then (parseStrBody cs2).map (fun p => (Char.ofNat 8 :: p.1, p.2))
        else if e = 'f' then (parseStrBody cs2).map (fun p => (Char.ofNat 12 :: p.1, p.2))
        else if e = 'n' then (parseStrBody cs2).map (fun p => ('\n' :: p.1, p.2))
        else if e = 'r' then (parseStrBody cs2).map (fun p => ('\r' :: p.1, p.2))
        else if e = 't' then (parseStrBody cs2).map (fun p => ('\t' :: p.1, p.2))
        else if e = 'u' then
          match cs2 with
          | h1 :: h2 :: h3 :: h4 :: cs3 =>
            if isHex h1 && isHex h2 && isHex h3 && isHex h4 then
              (parseStrBody cs3).map (fun p =>
                (Char.ofNat
                  (((hexVal h1 * 16 + hexVal h2) * 16 + hexVal h3) * 16 + hexVal h4)
                  :: p.1, p.2))
            else none
          | _ => none
        else none
    else if c.toNat < 32 then none
    else (parseStrBody cs).map (fun p => (c :: p.1, p.2))
termination_by structural l => l

/-- Horner accumulation of decimal digit characters. -/
def digitsVal : Nat → List Char → Nat
  | acc, [] => acc
  | acc, c :: cs => digitsVal (10 * acc + (c.toNat - 48)) cs
termination_by structural _ l => l

def takeDig : List Char → List Char
  | [] => []
  | c :: cs => if isDig c then c :: takeDig cs else []
termination_by structural l => l

def dropDig : List Char → List Char
  | [] => []
  | c :: cs => if isDig c then dropDig cs else c :: cs
termination_by structural l => l

mutual
def parseVal : Nat → List Char → Option (Json × List Char)
  | 0, _ => none
  | _ + 1, [] => none
  | fuel + 1, c :: cs =>
    if c = 'n' then
      match cs with
      | 'u' :: 'l' :: 'l' :: r => some (.null, r)
      | _ => none
    else if c = 't' then
      match cs with
      | 'r' :: 'u' :: 'e' :: r => some (.bool true, r)
      | _ => none
    else if c = 'f' then
      match cs with
      | 'a' :: 'l' :: 's' :: 'e' :: r => some (.bool false, r)
      | _ => none
    else if c = '"' then
      (parseStrBody cs).map (fun p => (.str (String.mk p.1), p.2))
    else if c = '[' then
      match cs with
      | [] => none
      | d :: r2 =>
        if d = ']' then some (.arr .nil, r2)
        else (parseElems fuel (d :: r2)).map (fun p => (.arr p.1, p.2))
    else if c = lbrace then
      match cs with
      | d :: r2 =>
        if d = rbrace then some (.obj .nil, r2)
        else (parseMembers fuel (d :: r2)).map (fun p => (.obj p.1, p.2))
      | [] => none
    else if c = '-' then
      match cs with
      | d :: _ =>
        if isDig d then some (.num (-(digitsVal 0 (takeDig cs) : Int)), dropDig cs)
        else none
      | [] => none
    else if isDig c then
      some (.num ((digitsVal 0 (takeDig (c :: cs)) : Int)), dropDig (c :: cs))
    else none
def parseElems : Nat → List Char → Option (JsonArr × List Char)
  | 0, _ => none
  | fuel + 1, cs =>
    match parseVal fuel cs with
    | none => none
    | some (v, r) =>
      match r with
      | ',' :: r2 => (parseElems fuel r2).map (fun p => (.cons v p.1, p.2))
      | ']' :: r2 => some (.cons v .nil, r2)
      | _ => none
def parseMembers : Nat → List Char → Option (JsonObj × List Char)
  | 0, _ => none
  | fuel + 1, cs =>
    match cs with
    | '"' :: cs2 =>
      match parseStrBody cs2 with
      | none => none
      | some (k, r1) =>
        match r1 with
        | ':' :: r2 =>
          match parseVal fuel r2 with
          | none => none
          | some (v, r3) =>
            match r3 with
            | d :: r4 =>
              if d = ',' then
                (parseMembers fuel r4).map (fun p => (.cons (String.mk k) v p.1, p.2))
              else if d = rbrace then some (.cons (String.mk k) v .nil, r4)
              else none
            | [] => none
        | _ => none
    | _ => none
end

/-- Parsing `JSON.parse` of a complete document: fuel from the input length, and the
whole input must be consumed. -/
def jsonParse (s : String) : Option Json :=
  match parseVal (s.data.length + 1) s.data with
  | some (g, []) => some g
  | _ => none

/-! ## Fuel accounting for the round trip -/

/-- The remainder after a stringified number never starts with another digit. -/
def noDigHead : List Char → Prop
  | [] => True
  | c :: _ => isDig c = false


/-! ## Query service -/

/-- Code-point lexicographic comparison of character lists — the order SQLite
BINARY collation gives TEXT values (memcmp on UTF-8 preserves code-point
order). Structurally recursive so that it evaluates by kernel reduction. -/
def lexLe : List Char → List Char → Bool
  | x :: xs, y :: ys => if x < y then true else if x = y then lexLe xs ys else false
  | [], _ => true
  | _ :: _, [] => false
termination_by structural l _ => l

def strLeb (a b : String) : Bool := lexLe a.data b.data

/-- Query shape `SELECT DISTINCT x ... ORDER BY x`: the distinct values sorted ascending
in SQLite's BINARY text order. -/
def sqlSortedDistinct (l : List String) : List String :=
  l.dedup.insertionSort (fun a b => strLeb a b = true)

/-! ## GeoJSON features and the precincts loader

`server.js` reads `props.pctkey`, `props.county`, `props.city`,
`props.us_congress`, `props.state_senate`, `props.state_house` and
`feat.geometry`; a feature is modelled by exactly those reads. -/

structure GeoProps where
  pctkey : Option Json
  county : Option Json
  city : Option Json
  us_congress : Option Json
  state_senate : Option Json
  state_house : Option Json
deriving DecidableEq

structure Feature where
  properties : GeoProps
  geometry : Json
deriving DecidableEq

/-- The chain `props.us_congress || props.state_senate || props.state_house || "Unknown"`. -/
def districtOf (p : GeoProps) : Json :=
  jsOr p.us_congress (jsOr p.state_senate (jsOr p.state_house (.str "Unknown")))

/-- The values the loader computes for one feature (zero-based `index`):
the three `||`-defaulted JS values, the district after the explicit
`String(...)` conversion the code applies to it, and the geometry serialized
with `JSON.stringify`. -/
structure MappedRow where
  pctkey : Json
  county : Json
  jurisdiction : Json
  district : String
  geometry : String
deriving DecidableEq

def mapFeature (index : Nat) (feat : Feature) : MappedRow where
  pctkey := jsOr feat.properties.pctkey (.str ("precinct_" ++ String.mk (natChars index)))
  county := jsOr feat.properties.county (.str "Unknown")
  jurisdiction := jsOr feat.properties.city (.str "Unknown")
  district := jsString (districtOf feat.properties)
  geometry := stringifyJson feat.geometry

/-- node-sqlite3 binding of a JS value into a TEXT-affinity column: strings
bind as themselves, numbers as their decimal text, booleans as the integers
1/0 (TEXT affinity renders them as text), `null` as SQL NULL; plain objects
and arrays are not bindable, so the insert errors (outer `none`) and the
loader only logs it. -/
def bindVal : Json → Option (Option String)
  | .str s => some (some s)
  | .num n => some (some (String.mk (intChars n)))
  | .bool b => some (some (if b then "1" else "0"))
  | .null => some none
  | .arr _ => none
  | .obj _ => none

/-- One stored row of the `precincts` table (all columns TEXT, nullable). -/
structure PRow where
  pctkey : Option String
  county : Option String
  jurisdiction : Option String
  district : Option String
  geometry : Option String
deriving DecidableEq

/-- The row the prepared insert stores for one feature, if every bound value
is bindable (district and geometry are always text by construction). -/
def featureRow (index : Nat) (feat : Feature) : Option PRow :=
  match bindVal (mapFeature index feat).pctkey, bindVal (mapFeature index feat).county,
      bindVal (mapFeature index feat).jurisdiction with
  | some pk, some co, some ju =>
    some { pctkey := pk, county := co, jurisdiction := ju,
           district := some (mapFeature index feat).district,
           geometry := some (mapFeature index feat).geometry }
  | _, _, _ => none

/-- Insertion `INSERT INTO precincts`: `pctkey TEXT PRIMARY KEY` rejects a row whose
non-NULL key is already present (`SQLITE_CONSTRAINT`, table unchanged, error
deliberately swallowed by the loader); otherwise the row is appended. -/
def insertPrecinct (t : List PRow) (r : PRow) : List PRow :=
  match r.pctkey with
  | some k => if t.any (fun q => decide (q.pctkey = some k)) then t else t ++ [r]
  | none => t ++ [r]

/-- The loop `precinctsGeo.features.forEach((feat, index) => ...)`. -/
def loadPrecinctsAux : Nat → List PRow → List Feature → List PRow
  | _, t, [] => t
  | index, t, feat :: fs =>
    loadPrecinctsAux (index + 1)
      (match featureRow index feat with
       | some r => insertPrecinct t r
       | none => t) fs
termination_by structural _ _ l => l

def loadPrecincts (fs : List Feature) : List PRow := loadPrecinctsAux 0 [] fs

/-! ## CSV records and the results loader -/

/-- One record from `csv-parser`: a present column yields its string value, a
column absent from the CSV header is `undefined` (`none`). Only the fields the
loader reads are modelled — note that it reads `party_simplified`, never
`party`. -/
structure CsvRecord where
  pctkey : Option String
  office : Option String
  candidate : Option String
  votes : Option String
  party : Option String
  party_simplified : Option String
deriving DecidableEq

/-- One stored row of the `results` table, holding the five bound values.
(SQLite column affinity on `votes INTEGER` is a storage detail below this
model: a row holds what the loader binds.) -/
structure RRow where
  pctkey : Option String
  office : Option String
  candidate : Option String
  votes : Option String
  party : Option String
deriving DecidableEq

/-- The bound values for one record, in the code's order
`[row.pctkey, row.office, row.candidate, row.votes, row.party_simplified]`,
each passed through unchanged. -/
def mapResultRow (rec : CsvRecord) : RRow where
  pctkey := rec.pctkey
  office := rec.office
  candidate := rec.candidate
  votes := rec.votes
  party := rec.party_simplified

/-- The `results` table has no constraints: every record inserts. -/
def loadResults (recs : List CsvRecord) : List RRow := recs.map mapResultRow

/-- Endpoint `GET /api/filters` (`WHERE county IS NOT NULL` and the projection are the
`filterMap`). -/
def filtersEndpoint (t : List PRow) : List String :=
  sqlSortedDistinct (t.filterMap PRow.county)

/-- Endpoint `GET /api/jurisdictions?county=`; `!county || county === "Select County"`
short-circuits to `[]`. -/
def jurisdictionsEndpoint (county : Option String) (t : List PRow) : List String :=
  match county with
  | none => []
  | some c =>
    if c = "" ∨ c = "Select County" then []
    else
      sqlSortedDistinct
        ((t.filter (fun r => decide (r.county = some c))).filterMap PRow.jurisdiction)

/-- Endpoint `GET /api/districts?county=&jurisdiction=`. -/
def districtsEndpoint (county jurisdiction : Option String) (t : List PRow) :
    List String :=
  match county, jurisdiction with
  | some c, some j =>
    if c = "" ∨ j = "" ∨ c = "Select County" ∨ j = "Select Jurisdiction" then []
    else
      sqlSortedDistinct
        ((t.filter (fun r =>
            decide (r.county = some c) && decide (r.jurisdiction = some j))).filterMap
          PRow.district)
  | _, _ => []

/-- A `/api/precincts` filter parameter adds its equality clause exactly when
present, nonempty and not its sentinel (`if (x && x !== "Select X")`). -/
def activeFilter (q : Option String) (sentinel : String) : Option String :=
  match q with
  | none => none
  | some s => if s = "" ∨ s = sentinel then none else some s

def matchFilter (q : Option String) (field : Option String) : Bool :=
  match q with
  | none => true
  | some s => decide (field = some s)

/-- One row of the `/api/precincts` response (the nested `properties` object
flattened into its four fields). -/
structure OutFeature where
  type : String
  pctkey : Option String
  county : Option String
  jurisdiction : Option String
  district : Option String
  geometry : Option Json
deriving DecidableEq

/-- Response row `\x7btype: "Feature", properties, geometry: JSON.parse(row.geometry)\x7d`;
a NULL geometry column reads back as JS `null` (`JSON.parse(null)` parses the
string `"null"`). -/
def rowToFeature (r : PRow) : OutFeature where
  type := "Feature"
  pctkey := r.pctkey
  county := r.county
  jurisdiction := r.jurisdiction
  district := r.district
  geometry := jsonParse (match r.geometry with | some s => s | none => "null")

/-- Endpoint `GET /api/precincts?county=&jurisdiction=&district=`. -/
def precinctsEndpoint (county jurisdiction district : Option String)
    (t : List PRow) : List OutFeature :=
  (t.filter (fun r =>
      matchFilter (activeFilter county "Select County") r.county &&
      matchFilter (activeFilter jurisdiction "Select Jurisdiction") r.jurisdiction &&
      matchFilter (activeFilter district "Select District") r.district)).map
    rowToFeature

/-- Endpoint `GET /api/results?pctkey=`: `WHERE pctkey = ?`, a missing parameter binds
as SQL NULL and `= NULL` matches no row. -/
def resultsEndpoint (pctkey : Option String) (rt : List RRow) : List RRow :=
  rt.filter (fun r =>
    match pctkey with
    | some k => decide (r.pctkey = some k)
    | none => false)

structure GroupRow where
  county : Option String
  jurisdiction : Option String
  district : Option String
  count : Nat
deriving DecidableEq

/-- Query `SELECT county, jurisdiction, district, COUNT(*) FROM precincts GROUP BY
county, jurisdiction, district LIMIT 20`: one row per distinct triple with its
multiplicity — in first-occurrence order (SQLite leaves GROUP BY output order
unspecified) — truncated to 20. -/
def groupRows (t : List PRow) : List GroupRow :=
  ((t.map (fun r => (r.county, r.jurisdiction, r.district))).dedup.map
    (fun k =>
      { county := k.1, jurisdiction := k.2.1, district := k.2.2,
        count := t.countP
          (fun r => decide ((r.county, r.jurisdiction, r.district) = k)) })).take 20

structure DebugOut where
  precinctCount : Nat
  sampleData : List GroupRow
  database : String
deriving DecidableEq

/-- Endpoint `GET /api/debug` — note `precinctCount` is `rows.length` of the limited
grouped sample, and `database` is the fixed text `"./db/database.sqlite"`. -/
def debugEndpoint (t : List PRow) : DebugOut where
  precinctCount := (groupRows t).length
  sampleData := groupRows t
  database := "./db/database.sqlite"

/-- No value of this property is present and truthy, so JS `||` falls through. -/
def notTruthy (o : Option Json) : Prop := ∀ v, o = some v → truthy v = false




mutual
/-- Fuel sufficient for `parseVal` on the stringified value. -/
def fuelVal : Json → Nat
  | .arr (.cons h t) => 1 + fuelElems (.cons h t)
  | .obj (.cons k v t) => 1 + fuelMembers (.cons k v t)
  | _ => 1
def fuelElems : JsonArr → Nat
  | .nil => 0
  | .cons h t => 1 + fuelVal h + fuelElems t
def fuelMembers : JsonObj → Nat
  | .nil => 0
  | .cons _ v t => 1 + fuelVal v + fuelMembers t
end

/-! ## Digit round-trip lemmas -/

theorem isDig_hexChar {d : Nat} (h : d < 10) : isDig (hexChar d) = true := by
  interval_cases d <;> decide

theorem toNat_hexChar {d : Nat} (h : d < 10) : (hexChar d).toNat - 48 = d := by
  interval_cases d <;> decide

theorem isHex_hexChar {d : Nat} (h : d < 16) : isHex (hexChar d) = true := by
  interval_cases d <;> decide

theorem hexVal_hexChar {d : Nat} (h : d < 16) : hexVal (hexChar d) = d := by
  interval_cases d <;> decide

theorem natCharsAux_digits : ∀ fuel n : Nat, ∀ c ∈ natCharsAux fuel n, isDig c = true := by
  intro fuel
  induction fuel with
  | zero => intro n c hc; simp [natCharsAux] at hc
  | succ f ih =>
    intro n c hc
    match n with
    | 0 => simp [natCharsAux] at hc
    | m + 1 =>
      simp only [natCharsAux] at hc
      rcases List.mem_append.mp hc with h | h
      · exact ih _ c h
      · rw [List.mem_singleton] at h
        subst h
        exact isDig_hexChar (Nat.mod_lt _ (by omega))

theorem natChars_digits (n : Nat) : ∀ c ∈ natChars n, isDig c = true := by
  intro c hc
  rw [natChars] at hc
  split at hc
  · rw [List.mem_singleton] at hc; subst hc; decide
  · exact natCharsAux_digits _ _ c hc

theorem natChars_cons (n : Nat) : ∃ c t, natChars n = c :: t ∧ isDig c = true := by
  match h : natChars n with
  | [] =>
    exfalso
    rw [natChars] at h
    split at h
    · simp at h
    · rename_i hn
      match n, hn with
      | m + 1, _ => simp [natCharsAux] at h
  | c :: t => exact ⟨c, t, rfl, natChars_digits n c (h ▸ List.mem_cons_self c t)⟩

theorem digitsVal_cons (acc : Nat) (c : Char) (cs : List Char) :
    digitsVal acc (c :: cs) = digitsVal (10 * acc + (c.toNat - 48)) cs := rfl

theorem digitsVal_nil (acc : Nat) : digitsVal acc [] = acc := rfl

theorem digitsVal_append (l1 l2 : List Char) (acc : Nat) :
    digitsVal acc (l1 ++ l2) = digitsVal (digitsVal acc l1) l2 := by
  induction l1 generalizing acc with
  | nil => rfl
  | cons c cs ih =>
    rw [List.cons_append, digitsVal_cons, digitsVal_cons]
    exact ih _

theorem digitsVal_natCharsAux : ∀ fuel n acc : Nat, n < fuel →
    digitsVal acc (natCharsAux fuel n)
      = acc * 10 ^ (natCharsAux fuel n).length + n := by
  intro fuel
  induction fuel with
  | zero => intro n acc h; exact absurd h (Nat.not_lt_zero n)
  | succ f ih =>
    intro n acc h
    match n with
    | 0 =>
      show digitsVal acc [] = acc * 10 ^ ([] : List Char).length + 0
      rw [digitsVal_nil]
      simp
    | m + 1 =>
      have hdiv : (m + 1) / 10 < f := by omega
      have h10 : 10 * ((m + 1) / 10) + (m + 1) % 10 = m + 1 := Nat.div_add_mod (m + 1) 10
      have hmod : (hexChar ((m + 1) % 10)).toNat - 48 = (m + 1) % 10 :=
        toNat_hexChar (Nat.mod_lt _ (by omega))
      have e1 : natCharsAux (f + 1) (m + 1)
          = natCharsAux f ((m + 1) / 10) ++ [hexChar ((m + 1) % 10)] := rfl
      rw [e1, digitsVal_append, ih _ _ hdiv, digitsVal_cons, digitsVal_nil, hmod,
        List.length_append, List.length_cons, List.length_nil]
      calc 10 * (acc * 10 ^ (natCharsAux f ((m + 1) / 10)).length + (m + 1) / 10)
            + (m + 1) % 10
          = acc * (10 ^ (natCharsAux f ((m + 1) / 10)).length * 10)
            + (10 * ((m + 1) / 10) + (m + 1) % 10) := by ring
        _ = acc * 10 ^ ((natCharsAux f ((m + 1) / 10)).length + (0 + 1)) + (m + 1) := by
            rw [Nat.zero_add, pow_succ, h10]

theorem digitsVal_natChars (n : Nat) : digitsVal 0 (natChars n) = n := by
  rw [natChars]
  split
  · rename_i h; subst h; rfl
  · rw [digitsVal_natCharsAux (n + 1) n 0 (by omega)]
    simp

theorem takeDig_stop {l : List Char} (h : noDigHead l) : takeDig l = [] := by
  match l with
  | [] => rfl
  | c :: cs =>
    simp only [noDigHead] at h
    simp [takeDig, h]

theorem dropDig_stop {l : List Char} (h : noDigHead l) : dropDig l = l := by
  match l with
  | [] => rfl
  | c :: cs =>
    simp only [noDigHead] at h
    simp [dropDig, h]

theorem digRun_split {ds : List Char} (hds : ∀ c ∈ ds, isDig c = true)
    {rest : List Char} (hrest : noDigHead rest) :
    takeDig (ds ++ rest) = ds ∧ dropDig (ds ++ rest) = rest := by
  induction ds with
  | nil => simpa [takeDig_stop hrest] using dropDig_stop hrest
  | cons c cs ih =>
    have hc : isDig c = true := hds c (by simp)
    have ihm := ih (fun x hx => hds x (by simp [hx]))
    simp [takeDig, dropDig, hc, ihm.1, ihm.2]

/-! ## String-body round-trip lemmas -/

theorem parseStrBody_hex (a b : Nat) (ha : a < 16) (hb : b < 16) (rest : List Char) :
    parseStrBody ('\\' :: 'u' :: '0' :: '0' :: hexChar a :: hexChar b :: rest)
      = (parseStrBody rest).map (fun p => (Char.ofNat (a * 16 + b) :: p.1, p.2)) := by
  have hA := isHex_hexChar ha
  have hB := isHex_hexChar hb
  have hVA := hexVal_hexChar ha
  have hVB := hexVal_hexChar hb
  have hH0 : isHex '0' = true := by decide
  have h0 : hexVal '0' = 0 := by decide
  rw [parseStrBody.eq_def]
  simp [hA, hB, hVA, hVB, hH0, h0]

theorem parseStrBody_escapeChar (c : Char) (rest : List Char) :
    parseStrBody (escapeChar c ++ rest)
      = (parseStrBody rest).map (fun p => (c :: p.1, p.2)) := by
  by_cases h1 : c = '"'
  · subst h1
    rw [(by decide : escapeChar '"' = ['\\', '"'])]
    rw [List.cons_append, List.cons_append, List.nil_append, parseStrBody.eq_def]
    simp
  by_cases h2 : c = '\\'
  · subst h2
    rw [(by decide : escapeChar '\\' = ['\\', '\\'])]
    rw [List.cons_append, List.cons_append, List.nil_append, parseStrBody.eq_def]
    simp
  by_cases h3 : c = Char.ofNat 8
  · subst h3
    rw [(by decide : escapeChar (Char.ofNat 8) = ['\\', 'b'])]
    rw [List.cons_append, List.cons_append, List.nil_append, parseStrBody.eq_def]
    simp
  by_cases h4 : c = '\t'
  · subst h4
    rw [(by decide : escapeChar '\t' = ['\\', 't'])]
    rw [List.cons_append, List.cons_append, List.nil_append, parseStrBody.eq_def]
    simp
  by_cases h5 : c = '\n'
  · subst h5
    rw [(by decide : escapeChar '\n' = ['\\', 'n'])]
    rw [List.cons_append, List.cons_append, List.nil_append, parseStrBody.eq_def]
    simp
  by_cases h6 : c = Char.ofNat 12
  · subst h6
    rw [(by decide : escapeChar (Char.ofNat 12) = ['\\', 'f'])]
    rw [List.cons_append, List.cons_append, List.nil_append, parseStrBody.eq_def]
    simp
  by_cases h7 : c = '\r'
  · subst h7
    rw [(by decide : escapeChar '\r' = ['\\', 'r'])]
    rw [List.cons_append, List.cons_append, List.nil_append, parseStrBody.eq_def]
    simp
  by_cases h8 : c.toNat < 32
  · have e1 : escapeChar c
        = ['\\', 'u', '0', '0', hexChar (c.toNat / 16), hexChar (c.toNat % 16)] := by
      simp [escapeChar, h1, h2, h3, h4, h5, h6, h7, h8]
    rw [e1]
    simp only [List.cons_append, List.nil_append]
    rw [parseStrBody_hex _ _ (by omega) (Nat.mod_lt _ (by omega))]
    have harith : c.toNat / 16 * 16 + c.toNat % 16 = c.toNat := by omega
    rw [harith, Char.ofNat_toNat]
  · have e1 : escapeChar c = [c] := by
      simp [escapeChar, h1, h2, h3, h4, h5, h6, h7, h8]
    rw [e1, List.cons_append, List.nil_append, parseStrBody.eq_def]
    simp [h1, h2, h8]

theorem parseStrBody_escapeList (s : List Char) : ∀ rest : List Char,
    parseStrBody (escapeList s ++ '"' :: rest) = some (s, rest) := by
  induction s with
  | nil =>
    intro rest
    rw [escapeList, List.nil_append, parseStrBody.eq_def]
    simp
  | cons c cs ih =>
    intro rest
    rw [escapeList, List.append_assoc, parseStrBody_escapeChar, ih]
    rfl


/-! ## Stringify emits enough structure for the parser -/

theorem tailChars_nil : tailChars .nil = [] := rfl

theorem tailChars_cons (h : Json) (t : JsonArr) :
    tailChars (.cons h t) = ',' :: (jsonChars h ++ tailChars t) := rfl

theorem mtailChars_nil : mtailChars .nil = [] := rfl

theorem mtailChars_cons (k : String) (v : Json) (t : JsonObj) :
    mtailChars (.cons k v t) = ',' :: (quoteChars k ++ ':' :: (jsonChars v ++ mtailChars t)) := rfl

theorem dig_ne_starters {c : Char} (h : isDig c = true) :
    c ≠ '-' ∧ c ≠ lbrace ∧ c ≠ 'n' ∧ c ≠ '"' ∧ c ≠ 't' ∧ c ≠ '[' ∧ c ≠ 'f' := by
  refine ⟨?_, ?_, ?_, ?_, ?_, ?_, ?_⟩ <;> (intro he; subst he; exact absurd h (by decide))

theorem dig_ne_close {c : Char} (h : isDig c = true) :
    c ≠ ']' ∧ c ≠ ',' ∧ c ≠ rbrace ∧ c ≠ ':' := by
  refine ⟨?_, ?_, ?_, ?_⟩ <;> (intro he; subst he; exact absurd h (by decide))

/-- Every stringified value starts with one of the parser's dispatch
characters. -/
theorem jsonChars_cons (g : Json) : ∃ c t, jsonChars g = c :: t ∧
    (isDig c = true ∨ c = 'n' ∨ c = 't' ∨ c = 'f' ∨ c = '"' ∨ c = '[' ∨
      c = lbrace ∨ c = '-') := by
  cases g with
  | null => exact ⟨'n', _, rfl, by simp⟩
  | bool b =>
    cases b with
    | true => exact ⟨'t', _, rfl, by simp⟩
    | false => exact ⟨'f', _, rfl, by simp⟩
  | num n =>
    by_cases hn : n < 0
    · refine ⟨'-', natChars n.natAbs, ?_, by simp⟩
      show intChars n = _
      rw [intChars, if_pos hn]
    · obtain ⟨c0, t0, he, hd⟩ := natChars_cons n.natAbs
      refine ⟨c0, t0, ?_, Or.inl hd⟩
      show intChars n = _
      rw [intChars, if_neg hn, he]
  | str s => exact ⟨'"', _, rfl, by simp⟩
  | arr a =>
    cases a with
    | nil => exact ⟨'[', _, rfl, by simp⟩
    | cons h t => exact ⟨'[', _, rfl, by simp⟩
  | obj o =>
    cases o with
    | nil => exact ⟨lbrace, _, rfl, by simp⟩
    | cons k v t => exact ⟨lbrace, _, rfl, by simp⟩

/-- In particular it never starts with a list/object terminator. -/
theorem jsonChars_head_ne (g : Json) :
    ∃ c t, jsonChars g = c :: t ∧ c ≠ ']' ∧ c ≠ rbrace := by
  obtain ⟨c, t, he, hd⟩ := jsonChars_cons g
  refine ⟨c, t, he, ?_, ?_⟩
  · rcases hd with h | h | h | h | h | h | h | h
    · exact (dig_ne_close h).1
    all_goals (subst h; decide)
  · rcases hd with h | h | h | h | h | h | h | h
    · exact (dig_ne_close h).2.2.1
    all_goals (subst h; decide)

theorem noDigHead_tail (t : JsonArr) (rest : List Char) :
    noDigHead (tailChars t ++ ']' :: rest) := by
  cases t with
  | nil => show isDig ']' = false; decide
  | cons h t2 => show isDig ',' = false; decide

theorem noDigHead_mtail (t : JsonObj) (rest : List Char) :
    noDigHead (mtailChars t ++ rbrace :: rest) := by
  cases t with
  | nil => show isDig rbrace = false; decide
  | cons k v t2 => show isDig ',' = false; decide

mutual
theorem fuelVal_le : ∀ g : Json, fuelVal g ≤ (jsonChars g).length
  | .null => by decide
  | .bool true => by decide
  | .bool false => by decide
  | .num n => by
    show 1 ≤ (intChars n).length
    rw [intChars]
    split
    · simp
    · obtain ⟨c0, t0, he, _⟩ := natChars_cons n.natAbs
      rw [he]
      simp
  | .str s => by
    show 1 ≤ (quoteChars s).length
    rw [quoteChars]
    simp
  | .arr .nil => by decide
  | .arr (.cons h t) => by
    have ih := fuelElems_le h t
    have e : fuelVal (.arr (.cons h t)) = 1 + fuelElems (.cons h t) := rfl
    have e2 : jsonChars (.arr (.cons h t)) = '[' :: (jsonChars h ++ (tailChars t ++ [']'])) := rfl
    rw [e, e2]
    simp only [List.length_cons, List.length_append, List.length_nil]
    omega
  | .obj .nil => by decide
  | .obj (.cons k v t) => by
    have ih := fuelMembers_le k v t
    have e : fuelVal (.obj (.cons k v t)) = 1 + fuelMembers (.cons k v t) := rfl
    have e2 : jsonChars (.obj (.cons k v t))
        = lbrace :: (quoteChars k ++ ':' :: (jsonChars v ++ (mtailChars t ++ [rbrace]))) := rfl
    rw [e, e2]
    simp only [List.length_cons, List.length_append, List.length_nil]
    omega
termination_by g => sizeOf g
theorem fuelElems_le : ∀ (h : Json) (t : JsonArr),
    fuelElems (.cons h t) ≤ (jsonChars h).length + (tailChars t).length + 1
  | h, .nil => by
    have ih := fuelVal_le h
    have e : fuelElems (.cons h .nil) = 1 + fuelVal h + 0 := rfl
    rw [e, tailChars_nil]
    simp only [List.length_nil]
    omega
  | h, .cons h2 t2 => by
    have ih1 := fuelVal_le h
    have ih2 := fuelElems_le h2 t2
    have e : fuelElems (.cons h (.cons h2 t2))
        = 1 + fuelVal h + fuelElems (.cons h2 t2) := rfl
    rw [e, tailChars_cons]
    simp only [List.length_cons, List.length_append]
    omega
termination_by h t => 1 + sizeOf h + sizeOf t
theorem fuelMembers_le : ∀ (k : String) (v : Json) (t : JsonObj),
    fuelMembers (.cons k v t)
      ≤ (quoteChars k).length + (jsonChars v).length + (mtailChars t).length + 2
  | k, v, .nil => by
    have ih := fuelVal_le v
    have e : fuelMembers (.cons k v .nil) = 1 + fuelVal v + 0 := rfl
    rw [e, mtailChars_nil]
    simp only [List.length_nil]
    omega
  | k, v, .cons k2 v2 t2 => by
    have ih1 := fuelVal_le v
    have ih2 := fuelMembers_le k2 v2 t2
    have e : fuelMembers (.cons k v (.cons k2 v2 t2))
        = 1 + fuelVal v + fuelMembers (.cons k2 v2 t2) := rfl
    have hq : 2 ≤ (quoteChars k2).length := by
      rw [quoteChars]
      simp
    rw [e, mtailChars_cons]
    simp only [List.length_cons, List.length_append]
    omega
termination_by _ v t => 1 + sizeOf v + sizeOf t
end

/-! ## Parser step lemmas -/

theorem pv_null (f : Nat) (r : List Char) :
    parseVal (f + 1) ('n' :: 'u' :: 'l' :: 'l' :: r) = some (.null, r) := rfl

theorem pv_true (f : Nat) (r : List Char) :
    parseVal (f + 1) ('t' :: 'r' :: 'u' :: 'e' :: r) = some (.bool true, r) := rfl

theorem pv_false (f : Nat) (r : List Char) :
    parseVal (f + 1) ('f' :: 'a' :: 'l' :: 's' :: 'e' :: r) = some (.bool false, r) := rfl

theorem pv_str (f : Nat) (tl : List Char) :
    parseVal (f + 1) ('"' :: tl)
      = (parseStrBody tl).map (fun p => (Json.str (String.mk p.1), p.2)) := rfl

theorem pv_arr (f : Nat) (d : Char) (r2 : List Char) :
    parseVal (f + 1) ('[' :: (d :: r2))
      = if d = ']' then some (.arr .nil, r2)
        else (parseElems f (d :: r2)).map (fun p => (.arr p.1, p.2)) := rfl

theorem pv_obj (f : Nat) (d : Char) (r2 : List Char) :
    parseVal (f + 1) (lbrace :: (d :: r2))
      = if d = rbrace then some (.obj .nil, r2)
        else (parseMembers f (d :: r2)).map (fun p => (.obj p.1, p.2)) := rfl

theorem pv_minus (f : Nat) (d : Char) (r : List Char) :
    parseVal (f + 1) ('-' :: (d :: r))
      = if isDig d then
          some (.num (-(digitsVal 0 (takeDig (d :: r)) : Int)), dropDig (d :: r))
        else none := rfl

theorem pv_digit (f : Nat) (c : Char) (tl : List Char) (h : isDig c = true) :
    parseVal (f + 1) (c :: tl)
      = some (.num (digitsVal 0 (takeDig (c :: tl)) : Int), dropDig (c :: tl)) := by
  obtain ⟨h7, h6, h1, h4, h2, h5, h3⟩ := dig_ne_starters h
  rw [parseVal.eq_def]
  simp [h1, h2, h3, h4, h5, h6, h7, h]

theorem pv_num (f : Nat) (n : Int) (rest : List Char) (hr : noDigHead rest) :
    parseVal (f + 1) (intChars n ++ rest) = some (.num n, rest) := by
  have hds := natChars_digits n.natAbs
  have hsplit := digRun_split hds hr
  obtain ⟨c0, t0, he, hd⟩ := natChars_cons n.natAbs
  by_cases hn : n < 0
  · have e : intChars n = '-' :: natChars n.natAbs := by rw [intChars, if_pos hn]
    rw [e, he, List.cons_append, List.cons_append, pv_minus, if_pos hd]
    rw [he, List.cons_append] at hsplit
    rw [hsplit.1, hsplit.2, ← he, digitsVal_natChars]
    have hcast : -((n.natAbs : Nat) : Int) = n := by omega
    rw [hcast]
  · have e : intChars n = natChars n.natAbs := by rw [intChars, if_neg hn]
    rw [e, he, List.cons_append, pv_digit f c0 (t0 ++ rest) hd]
    rw [he, List.cons_append] at hsplit
    rw [hsplit.1, hsplit.2, ← he, digitsVal_natChars]
    have hcast : ((n.natAbs : Nat) : Int) = n := by omega
    rw [hcast]

theorem pv_string (f : Nat) (s : String) (rest : List Char) :
    parseVal (f + 1) (quoteChars s ++ rest) = some (.str s, rest) := by
  rw [quoteChars, List.cons_append, List.append_assoc, List.singleton_append]
  rw [pv_str, parseStrBody_escapeList]
  rfl

/-! ## The round trip -/

mutual
theorem rtVal : ∀ (g : Json) (fuel : Nat) (rest : List Char),
    fuelVal g ≤ fuel → noDigHead rest →
    parseVal fuel (jsonChars g ++ rest) = some (g, rest)
  | .null, fuel, rest, hf, _ => by
    cases fuel with
    | zero => exact absurd hf (by decide)
    | succ f => exact pv_null f rest
  | .bool true, fuel, rest, hf, _ => by
    cases fuel with
    | zero => exact absurd hf (by decide)
    | succ f => exact pv_true f rest
  | .bool false, fuel, rest, hf, _ => by
    cases fuel with
    | zero => exact absurd hf (by decide)
    | succ f => exact pv_false f rest
  | .num n, fuel, rest, hf, hr => by
    cases fuel with
    | zero =>
      have e : fuelVal (.num n) = 1 := rfl
      omega
    | succ f => exact pv_num f n rest hr
  | .str s, fuel, rest, hf, _ => by
    cases fuel with
    | zero =>
      have e : fuelVal (.str s) = 1 := rfl
      omega
    | succ f => exact pv_string f s rest
  | .arr .nil, fuel, rest, hf, _ => by
    cases fuel with
    | zero => exact absurd hf (by decide)
    | succ f =>
      have h := pv_arr f ']' rest
      rw [if_pos rfl] at h
      exact h
  | .arr (.cons h t), fuel, rest, hf, _ => by
    cases fuel with
    | zero =>
      have e : fuelVal (.arr (.cons h t)) = 1 + fuelElems (.cons h t) := rfl
      omega
    | succ f =>
      have e : fuelVal (.arr (.cons h t)) = 1 + fuelElems (.cons h t) := rfl
      have hfe : fuelElems (.cons h t) ≤ f := by omega
      obtain ⟨c0, t0, he, hne1, hne2⟩ := jsonChars_head_ne h
      have e2 : jsonChars (.arr (.cons h t)) ++ rest
          = '[' :: (jsonChars h ++ (tailChars t ++ (']' :: rest))) := by
        have e3 : jsonChars (.arr (.cons h t))
            = '[' :: (jsonChars h ++ (tailChars t ++ [']'])) := rfl
        rw [e3]
        simp [List.append_assoc]
      rw [e2, he, List.cons_append, pv_arr, if_neg hne1]
      have key := rtElems h t f rest hfe
      rw [he, List.cons_append] at key
      rw [key]
      rfl
  | .obj .nil, fuel, rest, hf, _ => by
    cases fuel with
    | zero => exact absurd hf (by decide)
    | succ f =>
      have h := pv_obj f rbrace rest
      rw [if_pos rfl] at h
      exact h
  | .obj (.cons k v t), fuel, rest, hf, _ => by
    cases fuel with
    | zero =>
      have e : fuelVal (.obj (.cons k v t)) = 1 + fuelMembers (.cons k v t) := rfl
      omega
    | succ f =>
      have e : fuelVal (.obj (.cons k v t)) = 1 + fuelMembers (.cons k v t) := rfl
      have hfm : fuelMembers (.cons k v t) ≤ f := by omega
      have e2 : jsonChars (.obj (.cons k v t)) ++ rest
          = lbrace :: (quoteChars k ++ (':' :: (jsonChars v ++ (mtailChars t ++ (rbrace :: rest))))) := by
        have e3 : jsonChars (.obj (.cons k v t))
            = lbrace :: (quoteChars k ++ ':' :: (jsonChars v ++ (mtailChars t ++ [rbrace]))) := rfl
        rw [e3]
        simp [List.append_assoc]
      rw [e2, quoteChars, List.cons_append, pv_obj,
        if_neg (by decide : ¬('"' = rbrace))]
      have key := rtMembers k v t f rest hfm
      rw [quoteChars, List.cons_append] at key
      rw [key]
      rfl
termination_by g _ _ _ _ => sizeOf g
theorem rtElems : ∀ (h : Json) (t : JsonArr) (fuel : Nat) (rest : List Char),
    fuelElems (.cons h t) ≤ fuel →
    parseElems fuel (jsonChars h ++ (tailChars t ++ (']' :: rest))) = some (.cons h t, rest)
  | h, .nil, fuel, rest, hf => by
    cases fuel with
    | zero =>
      have e : fuelElems (.cons h .nil) = 1 + fuelVal h + 0 := rfl
      omega
    | succ f =>
      have e : fuelElems (.cons h .nil) = 1 + fuelVal h + 0 := rfl
      have hfv : fuelVal h ≤ f := by omega
      have hv := rtVal h f (']' :: rest) hfv (by show isDig ']' = false; decide)
      rw [tailChars_nil, List.nil_append]
      simp only [parseElems, hv]
  | h, .cons h2 t2, fuel, rest, hf => by
    cases fuel with
    | zero =>
      have e : fuelElems (.cons h (.cons h2 t2))
          = 1 + fuelVal h + fuelElems (.cons h2 t2) := rfl
      omega
    | succ f =>
      have e : fuelElems (.cons h (.cons h2 t2))
          = 1 + fuelVal h + fuelElems (.cons h2 t2) := rfl
      have hfv : fuelVal h ≤ f := by omega
      have hfe : fuelElems (.cons h2 t2) ≤ f := by omega
      have hv := rtVal h f (tailChars (.cons h2 t2) ++ (']' :: rest)) hfv
        (noDigHead_tail _ _)
      have key := rtElems h2 t2 f rest hfe
      rw [tailChars_cons, List.cons_append, List.append_assoc] at hv
      rw [tailChars_cons, List.cons_append, List.append_assoc]
      simp only [parseElems, hv]
      rw [key]
      rfl
termination_by h t _ _ _ => 1 + sizeOf h + sizeOf t
theorem rtMembers : ∀ (k : String) (v : Json) (t : JsonObj) (fuel : Nat) (rest : List Char),
    fuelMembers (.cons k v t) ≤ fuel →
    parseMembers fuel
        (quoteChars k ++ (':' :: (jsonChars v ++ (mtailChars t ++ (rbrace :: rest)))))
      = some (.cons k v t, rest)
  | k, v, .nil, fuel, rest, hf => by
    cases fuel with
    | zero =>
      have e : fuelMembers (.cons k v .nil) = 1 + fuelVal v + 0 := rfl
      omega
    | succ f =>
      have e : fuelMembers (.cons k v .nil) = 1 + fuelVal v + 0 := rfl
      have hfv : fuelVal v ≤ f := by omega
      have hv := rtVal v f (rbrace :: rest) hfv (by show isDig rbrace = false; decide)
      rw [mtailChars_nil, List.nil_append]
      rw [quoteChars, List.cons_append, List.append_assoc, List.singleton_append]
      simp only [parseMembers, parseStrBody_escapeList, hv]
      rfl
  | k, v, .cons k2 v2 t2, fuel, rest, hf => by
    cases fuel with
    | zero =>
      have e : fuelMembers (.cons k v (.cons k2 v2 t2))
          = 1 + fuelVal v + fuelMembers (.cons k2 v2 t2) := rfl
      omega
    | succ f =>
      have e : fuelMembers (.cons k v (.cons k2 v2 t2))
          = 1 + fuelVal v + fuelMembers (.cons k2 v2 t2) := rfl
      have hfv : fuelVal v ≤ f := by omega
      have hfm : fuelMembers (.cons k2 v2 t2) ≤ f := by omega
      have hv := rtVal v f (mtailChars (.cons k2 v2 t2) ++ (rbrace :: rest)) hfv
        (noDigHead_mtail _ _)
      have key := rtMembers k2 v2 t2 f rest hfm
      simp only [mtailChars_cons, List.cons_append, List.append_assoc] at hv
      rw [quoteChars, List.cons_append, List.append_assoc, List.singleton_append,
        mtailChars_cons]
      simp only [List.cons_append, List.append_assoc]
      simp only [parseMembers, parseStrBody_escapeList, hv]
      rw [key]
      rfl
termination_by k v t _ _ _ => 1 + sizeOf v + sizeOf t
end

/-- The geometry round trip: parsing a stringified JSON value gives back the
value, deep-equal (Lean equality). -/
theorem jsonParse_stringifyJson (g : Json) : jsonParse (stringifyJson g) = some g := by
  have hfuel : fuelVal g ≤ (jsonChars g).length + 1 :=
    le_trans (fuelVal_le g) (Nat.le_succ _)
  have h := rtVal g ((jsonChars g).length + 1) [] hfuel trivial
  rw [List.append_nil] at h
  simp [jsonParse, stringifyJson, h]

theorem lexLe_iff : ∀ as bs : List Char, lexLe as bs = true ↔ ¬ List.Lex (· < ·) bs as
  | [], bs => by
    constructor
    · intro _ hlt
      nomatch hlt
    · intro _
      rfl
  | a :: as, [] => by
    constructor
    · intro h
      have e : lexLe (a :: as) [] = false := rfl
      rw [e] at h
      cases h
    · intro hn
      exact absurd List.Lex.nil hn
  | a :: as, b :: bs => by
    have e : lexLe (a :: as) (b :: bs)
        = if a < b then true else if a = b then lexLe as bs else false := rfl
    rcases lt_trichotomy a b with h | h | h
    · rw [e, if_pos h]
      constructor
      · intro _ hlt
        cases hlt with
        | rel hba => exact lt_asymm h hba
        | cons htl => exact lt_irrefl _ h
      · intro _
        rfl
    · subst h
      rw [e, if_neg (lt_irrefl a), if_pos rfl]
      constructor
      · intro hle hlt
        cases hlt with
        | rel hba => exact lt_irrefl a hba
        | cons htl => exact (lexLe_iff as bs).mp hle htl
      · intro hn
        exact (lexLe_iff as bs).mpr (fun hlt => hn (List.Lex.cons hlt))
    · rw [e, if_neg (lt_asymm h), if_neg (by intro heq; subst heq; exact lt_irrefl a h)]
      constructor
      · intro hf
        cases hf
      · intro hn
        exact absurd (List.Lex.rel h) hn

theorem strLeb_iff (a b : String) : strLeb a b = true ↔ a ≤ b := by
  rw [String.le_iff_toList_le, ← not_lt]
  exact lexLe_iff a.data b.data

instance strLebTotal : IsTotal String (fun a b => strLeb a b = true) :=
  ⟨fun a b => by
    rcases le_total a b with h | h
    · exact Or.inl ((strLeb_iff a b).mpr h)
    · exact Or.inr ((strLeb_iff b a).mpr h)⟩

instance strLebTrans : IsTrans String (fun a b => strLeb a b = true) :=
  ⟨fun a b c hab hbc =>
    (strLeb_iff a c).mpr (le_trans ((strLeb_iff a b).mp hab) ((strLeb_iff b c).mp hbc))⟩

theorem sqlSortedDistinct_spec (l : List String) :
    (sqlSortedDistinct l).Nodup ∧ (sqlSortedDistinct l).Sorted (· ≤ ·)
      ∧ ∀ x, x ∈ sqlSortedDistinct l ↔ x ∈ l := by
  unfold sqlSortedDistinct
  refine ⟨?_, ?_, fun x => ?_⟩
  · exact ((List.perm_insertionSort _ _).nodup_iff).mpr (List.nodup_dedup l)
  · exact (List.sorted_insertionSort _ _).imp (fun h => (strLeb_iff _ _).mp h)
  · rw [List.mem_insertionSort, List.mem_dedup]

/-! ## Claim support lemmas -/

theorem jsOr_truthy {o : Option Json} {v d : Json} (hv : o = some v)
    (ht : truthy v = true) : jsOr o d = v := by
  rw [hv]
  simp [jsOr, ht]

theorem jsOr_default {o : Option Json} {d : Json} (h : notTruthy o) : jsOr o d = d := by
  cases o with
  | none => rfl
  | some v => simp [jsOr, h v rfl]

theorem insertPrecinct_mem {t : List PRow} {q r : PRow}
    (h : r ∈ insertPrecinct t q) : r ∈ t ∨ r = q := by
  match hk : q.pctkey with
  | some k =>
    simp only [insertPrecinct, hk] at h
    split at h
    · exact Or.inl h
    · rcases List.mem_append.mp h with h1 | h1
      · exact Or.inl h1
      · exact Or.inr (List.mem_singleton.mp h1)
  | none =>
    simp only [insertPrecinct, hk] at h
    rcases List.mem_append.mp h with h1 | h1
    · exact Or.inl h1
    · exact Or.inr (List.mem_singleton.mp h1)

theorem insertPrecinct_nodup {t : List PRow} (h : (t.filterMap PRow.pctkey).Nodup)
    (r : PRow) : ((insertPrecinct t r).filterMap PRow.pctkey).Nodup := by
  match hk : r.pctkey with
  | none =>
    simp only [insertPrecinct, hk]
    rw [List.filterMap_append]
    have e : ([r] : List PRow).filterMap PRow.pctkey = [] := by
      simp [List.filterMap_cons, hk]
    rw [e, List.append_nil]
    exact h
  | some k =>
    simp only [insertPrecinct, hk]
    split
    · exact h
    · rename_i hany
      rw [List.filterMap_append]
      have e : ([r] : List PRow).filterMap PRow.pctkey = [k] := by
        simp [List.filterMap_cons, hk]
      rw [e, List.nodup_append]
      refine ⟨h, List.nodup_singleton k, ?_⟩
      intro x hx hx2
      rw [List.mem_singleton] at hx2
      subst hx2
      obtain ⟨q, hq, hq2⟩ := List.mem_filterMap.mp hx
      exact hany (List.any_eq_true.mpr ⟨q, hq, by simp [hq2]⟩)

theorem loadPrecinctsAux_step (i : Nat) (t : List PRow) (f : Feature) (fs : List Feature) :
    loadPrecinctsAux i t (f :: fs)
      = loadPrecinctsAux (i + 1)
          (match featureRow i f with
           | some r => insertPrecinct t r
           | none => t) fs := rfl

theorem loadPrecinctsAux_nodup : ∀ (fs : List Feature) (i : Nat) (t : List PRow),
    (t.filterMap PRow.pctkey).Nodup →
    ((loadPrecinctsAux i t fs).filterMap PRow.pctkey).Nodup
  | [], _, _, h => h
  | f :: fs, i, t, h => by
    rw [loadPrecinctsAux_step]
    match hf : featureRow i f with
    | some r =>
      simp only [hf]
      exact loadPrecinctsAux_nodup fs _ _ (insertPrecinct_nodup h r)
    | none =>
      simp only [hf]
      exact loadPrecinctsAux_nodup fs _ _ h

theorem loadPrecinctsAux_mem : ∀ (fs : List Feature) (i : Nat) (t : List PRow) (r : PRow),
    r ∈ loadPrecinctsAux i t fs →
    r ∈ t ∨ ∃ f ∈ fs, ∃ j, featureRow j f = some r
  | [], _, _, _, h => Or.inl h
  | f :: fs, i, t, r, h => by
    rw [loadPrecinctsAux_step] at h
    match hf : featureRow i f with
    | some q =>
      simp only [hf] at h
      rcases loadPrecinctsAux_mem fs _ _ r h with h1 | ⟨f2, hf2, j, hj⟩
      · rcases insertPrecinct_mem h1 with h2 | h2
        · exact Or.inl h2
        · subst h2
          exact Or.inr ⟨f, by simp, i, hf⟩
      · exact Or.inr ⟨f2, by simp [hf2], j, hj⟩
    | none =>
      simp only [hf] at h
      rcases loadPrecinctsAux_mem fs _ _ r h with h1 | ⟨f2, hf2, j, hj⟩
      · exact Or.inl h1
      · exact Or.inr ⟨f2, by simp [hf2], j, hj⟩

theorem featureRow_fields {i : Nat} {f : Feature} {r : PRow}
    (h : featureRow i f = some r) :
    r.district = some (mapFeature i f).district
      ∧ r.geometry = some (mapFeature i f).geometry := by
  unfold featureRow at h
  split at h
  · rw [Option.some_inj] at h
    subst h
    exact ⟨rfl, rfl⟩
  · cases h

/-! ## Claims -/

/-- C1 (counterexample): loading two features with the same `pctkey` `"A"`
leaves exactly one row in the precincts table — the claim that duplicate
insertion is not prevented, so the table can hold two rows with the same key,
is false on this input. -/
theorem c1_counterexample :
    (loadPrecincts
      [⟨⟨some (.str "A"), none, none, none, none, none⟩, .null⟩,
       ⟨⟨some (.str "A"), none, none, none, none, none⟩, .bool true⟩]).length = 1
    ∧ (loadPrecincts
      [⟨⟨some (.str "A"), none, none, none, none, none⟩, .null⟩,
       ⟨⟨some (.str "A"), none, none, none, none, none⟩, .bool true⟩]).countP
        (fun r => decide (r.pctkey = some "A")) = 1 := by
  decide

/-- C1 (amended): precinct key uniqueness is enforced by the store, by the
`pctkey TEXT PRIMARY KEY` declaration: inserting a row whose non-NULL key
already exists is a constraint violation that leaves the table unchanged (the
loader deliberately swallows that error), and after loading any feature list
the non-NULL keys in the precincts table are pairwise distinct. -/
theorem c1_key_uniqueness_enforced :
    (∀ (t : List PRow) (r : PRow) (k : String),
      r.pctkey = some k → (∃ q ∈ t, q.pctkey = some k) → insertPrecinct t r = t)
    ∧ ∀ fs : List Feature, ((loadPrecincts fs).filterMap PRow.pctkey).Nodup := by
  constructor
  · intro t r k hk ⟨q, hq, hq2⟩
    simp only [insertPrecinct, hk]
    rw [if_pos (List.any_eq_true.mpr ⟨q, hq, by simp [hq2]⟩)]
  · intro fs
    exact loadPrecinctsAux_nodup fs 0 [] (by simp)

/-- C1 (witness): the amended theorem applied at a concrete table and feature
list: re-inserting key `"A"` leaves the one-row table unchanged, and the
loaded table has pairwise-distinct keys. -/
theorem c1_witness :
    insertPrecinct [⟨some "A", some "C", some "J", some "D", some "g"⟩]
        ⟨some "A", some "X", some "Y", some "Z", some "w"⟩
      = [⟨some "A", some "C", some "J", some "D", some "g"⟩]
    ∧ ((loadPrecincts [⟨⟨some (.str "A"), none, none, none, none, none⟩, .null⟩]).filterMap
        PRow.pctkey).Nodup :=
  ⟨c1_key_uniqueness_enforced.1 _ _ "A" rfl
      ⟨⟨some "A", some "C", some "J", some "D", some "g"⟩, List.mem_singleton_self _, rfl⟩,
   c1_key_uniqueness_enforced.2 _⟩

/-- C2 (counterexample): a feature whose `pctkey` property is present but the
empty string does not keep that value — JS `||` treats the falsy `""` as
absent, so the synthesized key is used; the claim's "if present" is false
here. -/
theorem c2_counterexample :
    (⟨⟨some (.str ""), none, none, none, none, none⟩, Json.null⟩ : Feature).properties.pctkey
        = some (Json.str "")
    ∧ (mapFeature 0 ⟨⟨some (.str ""), none, none, none, none, none⟩, Json.null⟩).pctkey
        ≠ Json.str "" := by
  decide

/-- C2 (amended): the loader maps each feature by JS `||`-defaulting, where a
present-and-truthy value wins and a present-but-falsy value (empty string,
zero, `false`, `null`) falls through exactly like an absent one: key is
`properties.pctkey` when truthy else `"precinct_<index>"`; county is
`properties.county` when truthy else `"Unknown"`; jurisdiction is
`properties.city` when truthy else `"Unknown"`; district is the first truthy
value among `us_congress`, `state_senate`, `state_house` in that priority
order (then converted by `String(...)`), else `"Unknown"`. -/
theorem c2_field_mapping (index : Nat) (feat : Feature) :
    ((∀ v, feat.properties.pctkey = some v → truthy v = true →
        (mapFeature index feat).pctkey = v)
      ∧ (notTruthy feat.properties.pctkey →
        (mapFeature index feat).pctkey
          = .str ("precinct_" ++ String.mk (natChars index))))
    ∧ ((∀ v, feat.properties.county = some v → truthy v = true →
        (mapFeature index feat).county = v)
      ∧ (notTruthy feat.properties.county →
        (mapFeature index feat).county = .str "Unknown"))
    ∧ ((∀ v, feat.properties.city = some v → truthy v = true →
        (mapFeature index feat).jurisdiction = v)
      ∧ (notTruthy feat.properties.city →
        (mapFeature index feat).jurisdiction = .str "Unknown"))
    ∧ ((∀ v, feat.properties.us_congress = some v → truthy v = true →
        (mapFeature index feat).district = jsString v)
      ∧ (notTruthy feat.properties.us_congress →
        ((∀ v, feat.properties.state_senate = some v → truthy v = true →
            (mapFeature index feat).district = jsString v)
          ∧ (notTruthy feat.properties.state_senate →
            ((∀ v, feat.properties.state_house = some v → truthy v = true →
                (mapFeature index feat).district = jsString v)
              ∧ (notTruthy feat.properties.state_house →
                (mapFeature index feat).district = "Unknown")))))) := by
  refine ⟨⟨?_, ?_⟩, ⟨?_, ?_⟩, ⟨?_, ?_⟩, ?_, ?_⟩
  · intro v hv ht
    show jsOr feat.properties.pctkey _ = v
    rw [jsOr_truthy hv ht]
  · intro hnt
    show jsOr feat.properties.pctkey _ = _
    rw [jsOr_default hnt]
  · intro v hv ht
    show jsOr feat.properties.county _ = v
    rw [jsOr_truthy hv ht]
  · intro hnt
    show jsOr feat.properties.county _ = _
    rw [jsOr_default hnt]
  · intro v hv ht
    show jsOr feat.properties.city _ = v
    rw [jsOr_truthy hv ht]
  · intro hnt
    show jsOr feat.properties.city _ = _
    rw [jsOr_default hnt]
  · intro v hv ht
    show jsString (districtOf feat.properties) = jsString v
    rw [districtOf, jsOr_truthy hv ht]
  · intro h1
    constructor
    · intro v hv ht
      show jsString (districtOf feat.properties) = jsString v
      rw [districtOf, jsOr_default h1, jsOr_truthy hv ht]
    · intro h2
      constructor
      · intro v hv ht
        show jsString (districtOf feat.properties) = jsString v
        rw [districtOf, jsOr_default h1, jsOr_default h2, jsOr_truthy hv ht]
      · intro h3
        show jsString (districtOf feat.properties) = "Unknown"
        rw [districtOf, jsOr_default h1, jsOr_default h2, jsOr_default h3]
        rfl

/-- C2 (witness): the amended mapping at index 3 of a feature with a numeric
`us_congress` and no `pctkey`: the district is `String(5)` and the key is the
synthesized `"precinct_3"`. -/
theorem c2_witness :
    (mapFeature 3 ⟨⟨none, none, none, some (.num 5), some (.str "S"), none⟩, .null⟩).district
        = jsString (.num 5)
    ∧ (mapFeature 3 ⟨⟨none, none, none, some (.num 5), some (.str "S"), none⟩, .null⟩).pctkey
        = .str ("precinct_" ++ String.mk (natChars 3)) :=
  ⟨(c2_field_mapping 3 _).2.2.2.1 (.num 5) rfl (by decide),
   (c2_field_mapping 3 _).1.2 (fun v h => by cases h)⟩

/-- C3: with no parameters, `/api/precincts` returns one feature per precinct
row (every row), and every row in the loaded table carries the serialized
geometry of some input feature, which the endpoint's `JSON.parse` deserializes
back to a value deep-equal to that feature's original geometry. -/
theorem c3_geometry_roundtrip (fs : List Feature) :
    precinctsEndpoint none none none (loadPrecincts fs)
        = (loadPrecincts fs).map rowToFeature
    ∧ ∀ r ∈ loadPrecincts fs, ∃ f ∈ fs,
        r.geometry = some (stringifyJson f.geometry)
        ∧ (rowToFeature r).geometry = some f.geometry := by
  constructor
  · unfold precinctsEndpoint
    have hp : List.filter
        (fun r =>
          matchFilter (activeFilter none "Select County") r.county &&
            matchFilter (activeFilter none "Select Jurisdiction") r.jurisdiction &&
            matchFilter (activeFilter none "Select District") r.district)
        (loadPrecincts fs) = loadPrecincts fs :=
      List.filter_eq_self.mpr (fun r _ => rfl)
    rw [hp]
  · intro r hr
    rcases loadPrecinctsAux_mem fs 0 [] r hr with h1 | ⟨f, hf, j, hj⟩
    · cases h1
    · refine ⟨f, hf, ?_, ?_⟩
      · exact (featureRow_fields hj).2
      · have hg := (featureRow_fields hj).2
        show jsonParse (match r.geometry with | some s => s | none => "null") = some f.geometry
        rw [hg]
        exact jsonParse_stringifyJson f.geometry

/-- C3 (witness): the round trip at a one-feature list with `null` geometry:
the stored text is `"null"` and parses back to the original geometry. -/
theorem c3_witness :
    ∃ f ∈ ([⟨⟨some (.str "A"), none, none, none, none, none⟩, .null⟩] : List Feature),
      (⟨some "A", some "Unknown", some "Unknown", some "Unknown", some "null"⟩ : PRow).geometry
          = some (stringifyJson f.geometry)
        ∧ (rowToFeature
            ⟨some "A", some "Unknown", some "Unknown", some "Unknown", some "null"⟩).geometry
          = some f.geometry :=
  (c3_geometry_roundtrip [⟨⟨some (.str "A"), none, none, none, none, none⟩, .null⟩]).2
    ⟨some "A", some "Unknown", some "Unknown", some "Unknown", some "null"⟩ (by decide)

/-- C4: the results loader performs no type coercion on the vote count: every
stored row's `votes` is exactly the record's `votes` value as provided by the
CSV (contrast the precincts loader, which applies `String(...)` to the
district before binding). -/
theorem c4_votes_stored_as_provided (recs : List CsvRecord) :
    (loadResults recs).map RRow.votes = recs.map CsvRecord.votes
    ∧ ∀ rec : CsvRecord, (mapResultRow rec).votes = rec.votes := by
  constructor
  · simp [loadResults, mapResultRow]
  · intro rec
    rfl

/-- C5 (counterexample): the claim fails for the county value
`"Select County"` stored in the table: the row's jurisdiction `"J"` is a
distinct non-null jurisdiction of a row whose county equals that value, yet
the endpoint returns `[]` because the sentinel short-circuits. -/
theorem c5_counterexample :
    jurisdictionsEndpoint (some "Select County")
        [⟨some "k", some "Select County", some "J", some "D", some "g"⟩] = []
    ∧ (([⟨some "k", some "Select County", some "J", some "D", some "g"⟩] : List PRow).filter
          (fun r => decide (r.county = some "Select County"))).filterMap PRow.jurisdiction
        = ["J"] := by
  decide

/-- C5 (amended): for every county value X present in the store other than
the empty string and the sentinel `"Select County"` (which the endpoint
treats as "none selected" and answers `[]`), `/api/jurisdictions?county=X`
returns exactly the distinct non-null jurisdiction values of rows whose
county equals X, sorted ascending, with no duplicates. -/
theorem c5_jurisdictions_exact (t : List PRow) (X : String)
    (hne : X ≠ "") (hsent : X ≠ "Select County") :
    (jurisdictionsEndpoint (some X) t).Nodup
    ∧ (jurisdictionsEndpoint (some X) t).Sorted (· ≤ ·)
    ∧ ∀ j, j ∈ jurisdictionsEndpoint (some X) t
        ↔ ∃ r ∈ t, r.county = some X ∧ r.jurisdiction = some j := by
  have he : jurisdictionsEndpoint (some X) t
      = sqlSortedDistinct
          ((t.filter (fun r => decide (r.county = some X))).filterMap PRow.jurisdiction) := by
    simp [jurisdictionsEndpoint, hne, hsent]
  obtain ⟨h1, h2, h3⟩ := sqlSortedDistinct_spec
    ((t.filter (fun r => decide (r.county = some X))).filterMap PRow.jurisdiction)
  rw [he]
  refine ⟨h1, h2, fun j => ?_⟩
  rw [h3]
  constructor
  · intro hj
    obtain ⟨r, hr, hr2⟩ := List.mem_filterMap.mp hj
    rw [List.mem_filter] at hr
    exact ⟨r, hr.1, by simpa using hr.2, hr2⟩
  · intro ⟨r, hr, hc, hj⟩
    exact List.mem_filterMap.mpr ⟨r, List.mem_filter.mpr ⟨hr, by simp [hc]⟩, hj⟩

/-- C5 (witness): the amended theorem at a two-row store for county `"C"`:
the jurisdictions of its rows come back, each exactly once. -/
theorem c5_witness :
    "J" ∈ jurisdictionsEndpoint (some "C")
        [⟨some "k", some "C", some "J", some "D", some "g"⟩] :=
  ((c5_jurisdictions_exact [⟨some "k", some "C", some "J", some "D", some "g"⟩] "C"
      (by decide) (by decide)).2.2 "J").mpr
    ⟨⟨some "k", some "C", some "J", some "D", some "g"⟩, List.mem_singleton_self _, rfl, rfl⟩

/-- C6: every operation with a required query parameter answers a missing or
invalid parameter with an empty successful result, never an error: a missing
or sentinel county for jurisdictions; a missing or sentinel county or
jurisdiction for districts; an unknown county+jurisdiction pair for
districts; and a missing `pctkey` for results (which binds as SQL NULL and
matches no row). -/
theorem c6_missing_params_empty :
    (∀ t : List PRow, jurisdictionsEndpoint none t = [])
    ∧ (∀ t : List PRow, jurisdictionsEndpoint (some "") t = [])
    ∧ (∀ t : List PRow, jurisdictionsEndpoint (some "Select County") t = [])
    ∧ (∀ (t : List PRow) (j : Option String), districtsEndpoint none j t = [])
    ∧ (∀ (t : List PRow) (c : Option String), districtsEndpoint c none t = [])
    ∧ (∀ (t : List PRow) (j : Option String),
        districtsEndpoint (some "Select County") j t = [])
    ∧ (∀ (t : List PRow) (c : Option String),
        districtsEndpoint c (some "Select Jurisdiction") t = [])
    ∧ (∀ (t : List PRow) (c j : String),
        (∀ r ∈ t, ¬(r.county = some c ∧ r.jurisdiction = some j)) →
        districtsEndpoint (some c) (some j) t = [])
    ∧ (∀ rt : List RRow, resultsEndpoint none rt = []) := by
  refine ⟨fun t => rfl, fun t => rfl, fun t => rfl, ?_, ?_, ?_, ?_, ?_, ?_⟩
  · intro t j
    cases j <;> rfl
  · intro t c
    cases c <;> rfl
  · intro t j
    cases j with
    | none => rfl
    | some j => simp [districtsEndpoint]
  · intro t c
    cases c with
    | none => rfl
    | some c => simp [districtsEndpoint]
  · intro t c j hun
    have hnil : t.filter
        (fun r => decide (r.county = some c) && decide (r.jurisdiction = some j)) = [] := by
      rw [List.filter_eq_nil_iff]
      intro r hr
      simp only [Bool.and_eq_true, decide_eq_true_eq]
      intro hcj
      exact hun r hr hcj
    show (if c = "" ∨ j = "" ∨ c = "Select County" ∨ j = "Select Jurisdiction" then []
        else sqlSortedDistinct
          ((t.filter (fun r =>
              decide (r.county = some c) && decide (r.jurisdiction = some j))).filterMap
            PRow.district)) = []
    split
    · rfl
    · rw [hnil]
      decide
  · intro rt
    unfold resultsEndpoint
    rw [List.filter_eq_nil_iff]
    intro r _
    exact fun h => Bool.noConfusion h

/-- C6 (witness): an unknown county+jurisdiction pair on a concrete one-row
store yields the empty array. -/
theorem c6_witness :
    districtsEndpoint (some "Nowhere") (some "Nothing")
        [⟨some "k", some "C", some "J", some "D", some "g"⟩] = [] :=
  c6_missing_params_empty.2.2.2.2.2.2.2.1
    [⟨some "k", some "C", some "J", some "D", some "g"⟩] "Nowhere" "Nothing" (by decide)

/-- C7: for each of the three precincts filters, passing its sentinel
placeholder value gives the same response as omitting the parameter, over
every store and every choice of the other two parameters — no equality
filter is applied for it. -/
theorem c7_sentinel_is_no_filter (t : List PRow) (a b : Option String) :
    precinctsEndpoint (some "Select County") a b t = precinctsEndpoint none a b t
    ∧ precinctsEndpoint a (some "Select Jurisdiction") b t = precinctsEndpoint a none b t
    ∧ precinctsEndpoint a b (some "Select District") t = precinctsEndpoint a b none t := by
  refine ⟨?_, ?_, ?_⟩ <;> rfl

/-- C8: the debug summary returns the grouped (county, jurisdiction,
district, count) rows truncated to at most 20, a row count equal to the
length of that truncated sample, and the fixed storage-location string
`"./db/database.sqlite"` — exactly the `precinctCount`, `sampleData` and
`database` fields of `DebugOut`. -/
theorem c8_debug_shape (t : List PRow) :
    debugEndpoint t
      = { precinctCount := (groupRows t).length, sampleData := groupRows t,
          database := "./db/database.sqlite" }
    ∧ (debugEndpoint t).sampleData.length ≤ 20
    ∧ (debugEndpoint t).precinctCount = (debugEndpoint t).sampleData.length := by
  refine ⟨rfl, ?_, rfl⟩
  show (groupRows t).length ≤ 20
  unfold groupRows
  exact List.length_take_le _ _

/-- C9: the precincts loader applies `String(...)` to the selected district
value, so a numeric `us_congress` property is stored as its decimal text;
the districts endpoint orders these stored texts as text, so numeric
districts sort lexicographically — concretely, `"10"` sorts before `"9"`. -/
theorem c9_district_text_order (t : List PRow) (c j : String) :
    (∀ (i : Nat) (f : Feature) (n : Int), f.properties.us_congress = some (.num n) →
      n ≠ 0 → (mapFeature i f).district = String.mk (intChars n))
    ∧ (districtsEndpoint (some c) (some j) t).Sorted (· ≤ ·)
    ∧ districtsEndpoint (some "C") (some "J")
        [⟨some "p1", some "C", some "J", some "9", some "g"⟩,
         ⟨some "p2", some "C", some "J", some "10", some "g"⟩] = ["10", "9"] := by
  refine ⟨?_, ?_, by decide⟩
  · intro i f n hup hn
    have ht : truthy (.num n) = true := by simp [truthy, hn]
    show jsString (districtOf f.properties) = _
    rw [districtOf, jsOr_truthy hup ht]
    rfl
  · show List.Sorted (· ≤ ·)
      (if c = "" ∨ j = "" ∨ c = "Select County" ∨ j = "Select Jurisdiction" then []
       else sqlSortedDistinct
        ((t.filter (fun r =>
            decide (r.county = some c) && decide (r.jurisdiction = some j))).filterMap
          PRow.district))
    split
    · exact List.sorted_nil
    · exact (sqlSortedDistinct_spec _).2.1

/-- C9 (witness): the stringification conjunct applied at a feature whose
`us_congress` is the number 14. -/
theorem c9_witness :
    (mapFeature 0 ⟨⟨none, none, none, some (.num 14), none, none⟩, .null⟩).district
      = String.mk (intChars 14) :=
  (c9_district_text_order [] "C" "J").1 0
    ⟨⟨none, none, none, some (.num 14), none, none⟩, .null⟩ 14 rfl (by decide)

/-- C10: the results loader reads the party value from the CSV column
`party_simplified`, not from `party`: the stored party column is pointwise
the records' `party_simplified` value, and a record without that column
stores NULL even when the record has a `party` value. -/
theorem c10_party_from_party_simplified (recs : List CsvRecord) :
    (loadResults recs).map RRow.party = recs.map CsvRecord.party_simplified
    ∧ ∀ rec : CsvRecord, rec.party_simplified = none → (mapResultRow rec).party = none := by
  constructor
  · simp [loadResults, mapResultRow]
  · intro rec h
    show rec.party_simplified = none
    exact h

/-- C10 (witness): a record with `party = "X"` but no `party_simplified`
column stores a NULL party. -/
theorem c10_witness :
    (mapResultRow ⟨some "P1", some "Mayor", some "A", some "10", some "X", none⟩).party
      = none :=
  (c10_party_from_party_simplified []).2
    ⟨some "P1", some "Mayor", some "A", some "10", some "X", none⟩ rfl

end DfwMap





